import Mathlib

/-!
The log bridge of go-alpm (`callbacks.c`) and its installer.

A shallow embedding of the two functions of `callbacks.c`:

* `go_alpm_log_cb`, which renders a printf-style message into a 128 byte
  heap buffer, grows the buffer when `vsnprintf` reports a longer message,
  hands the buffer to the handler `LogCallback` and frees it;
* `go_alpm_set_logging`, which registers `go_alpm_log_cb` on a handle.

The C library routines the code calls (`malloc`, `vsnprintf`, `realloc`,
`free`) act on an explicit state: the list of live heap blocks and the
trace of calls made so far.  What the environment decides (whether an
allocation succeeds, where a block is placed, which bytes an uninitialised
block holds, what the formatting engine renders) is an input, `Env`.
-/

namespace GoAlpm

/-! ## Machine integers

`int` is 32 bits wide and `size_t` 64 bits wide.  Values are kept in `Int`
and every operation reduces modulo `2 ^ 32` explicitly (two's complement;
signed overflow, undefined in C, wraps in this model). -/

/-- Largest value of a C `int`. -/
def INT_MAX : Int := 2147483647

/-- Bit pattern of an `int`. -/
def toU32 (x : Int) : Nat := (x % 2 ^ 32).toNat

/-- Value of the `int` with the given bit pattern. -/
def ofU32 (n : Nat) : Int := if n < 2 ^ 31 then (n : Int) else (n : Int) - 2 ^ 32

/-- C `a + b` on `int`. -/
def int_add (a b : Int) : Int := ofU32 (toU32 (a + b))

/-- C `a & b` on `int`. -/
def int_and (a b : Int) : Int := ofU32 (toU32 a &&& toU32 b)

/-- C `~a` on `int`. -/
def int_not (a : Int) : Int := ofU32 (2 ^ 32 - 1 - toU32 a)

/-- Conversion of an `int` argument to `size_t`. -/
def size_t_of_int (x : Int) : Nat := (x % 2 ^ 64).toNat

/-! ## Memory, events and state -/

/-- A pointer; `0` is the null pointer. -/
abbrev Ptr := Nat

/-- The null pointer. -/
def NULL : Ptr := 0

/-- A live heap block: its address and its contents; the capacity of the
block is the length of `bytes`. -/
structure Block where
  addr : Ptr
  bytes : List UInt8
deriving DecidableEq

/-- The live heap blocks. -/
abbrev Heap := List Block

/-- The type `alpm_loglevel_t` of `alpm.h`, an enumeration passed by value. -/
abbrev alpm_loglevel_t := Nat

/-- A call made by the program, with its arguments and its result.
`LogCallback` records the contents of the block its argument points to at
the time of the call. -/
inductive Event where
  | malloc (size : Nat) (ret : Ptr)
  | vsnprintf (s : Ptr) (size : Nat) (ret : Int)
  | realloc (ptr : Ptr) (size : Nat) (ret : Ptr)
  | LogCallback (level : alpm_loglevel_t) (s : Ptr) (buf : List UInt8)
  | free (ptr : Ptr)
deriving DecidableEq

/-- Program state: live heap blocks and the calls made so far. -/
structure State where
  heap : Heap
  trace : List Event
deriving DecidableEq

/-- One variadic argument. -/
inductive Arg where
  | str (s : List UInt8)
  | int (i : Int)
deriving DecidableEq

/-- What the formatting engine of the C library makes of a format string
and its arguments: `ok out` when it renders the characters `out` (those
that would be written with unlimited room), `error written` when it fails
after producing `written`. -/
inductive FormatResult where
  | ok (out : List UInt8)
  | error (written : List UInt8)
deriving DecidableEq

/-- The environment of one invocation. -/
structure Env where
  /-- The formatting engine behind `vsnprintf`. -/
  format : List UInt8 → List Arg → FormatResult
  /-- Outcome of `malloc`: `none` when it fails, else the address the
  allocator would like to use. -/
  mallocRet : Option Ptr
  /-- The indeterminate contents of a block returned by `malloc`. -/
  mallocFill : Nat → UInt8
  /-- Outcome of `realloc`: `none` when it fails, else the address the
  allocator would like to use. -/
  reallocRet : Option Ptr
  /-- The indeterminate contents of the part `realloc` adds to a block. -/
  reallocFill : Nat → UInt8

/-- The addresses of the live blocks. -/
def addrs (h : Heap) : List Ptr := h.map Block.addr

/-- The address the allocator returns: the one it would like when that is
non-null and not in use, else one past the largest live address. -/
def freshPtr (h : Heap) (cand : Ptr) : Ptr :=
  if cand ≠ 0 ∧ cand ∉ addrs h then cand else (addrs h).foldr max 0 + 1

/-- Contents of the block at `p` (empty when no live block is at `p`). -/
def load (h : Heap) (p : Ptr) : List UInt8 :=
  match h.find? (fun b => b.addr = p) with
  | some b => b.bytes
  | none => []

/-- Overwrite the start of the block at `p` with `data`, within its
capacity. -/
def store (h : Heap) (p : Ptr) (data : List UInt8) : Heap :=
  h.map fun b =>
    if b.addr = p then
      { b with bytes := (data ++ b.bytes.drop data.length).take b.bytes.length }
    else b

/-- C `malloc(size)`: on failure returns `NULL` and leaves the heap alone;
on success adds a block of `size` indeterminate bytes at a fresh address. -/
def malloc (env : Env) (size : Nat) (st : State) : Ptr × State :=
  match env.mallocRet with
  | none => (NULL, { st with trace := st.trace ++ [.malloc size NULL] })
  | some cand =>
    let p := freshPtr st.heap cand
    (p, { heap := st.heap ++ [⟨p, (List.range size).map env.mallocFill⟩],
          trace := st.trace ++ [.malloc size p] })

/-- The value `vsnprintf` returns: the rendered length when it fits an
`int`, a negative value otherwise and on an output error. -/
def vsnprintf_ret : FormatResult → Int
  | .ok out => if (out.length : Int) ≤ INT_MAX then (out.length : Int) else -1
  | .error _ => -1

/-- The characters `vsnprintf` produces before the bound cuts them. -/
def vsnprintf_out : FormatResult → List UInt8
  | .ok out => out
  | .error written => written

/-- C `vsnprintf(s, size, fmt, arg)`: writes at most `size - 1` characters
of the output to `s`, then a null character at the end of the characters
actually written (also when the engine fails part of the way), and returns
the length the full output has, or a negative value. -/
def vsnprintf (env : Env) (s : Ptr) (size : Nat) (fmt : List UInt8) (arg : List Arg)
    (st : State) : Int × State :=
  let r := env.format fmt arg
  let heap := if size = 0 then st.heap
    else store st.heap s ((vsnprintf_out r).take (size - 1) ++ [0])
  (vsnprintf_ret r, { heap := heap, trace := st.trace ++ [.vsnprintf s size (vsnprintf_ret r)] })

/-- C `realloc(ptr, size)`: on failure returns `NULL` and leaves the old
block live and untouched; on success the old block is released and a
block of `size` bytes, at the old or at a fresh address, holds the old
contents up to the smaller of the two sizes. -/
def realloc (env : Env) (ptr : Ptr) (size : Nat) (st : State) : Ptr × State :=
  match env.reallocRet with
  | none => (NULL, { st with trace := st.trace ++ [.realloc ptr size NULL] })
  | some cand =>
    let old := load st.heap ptr
    let rest := st.heap.filter (fun b => b.addr ≠ ptr)
    let p := freshPtr rest cand
    let bytes := old.take size ++ (List.range (size - old.length)).map env.reallocFill
    (p, { heap := rest ++ [⟨p, bytes⟩], trace := st.trace ++ [.realloc ptr size p] })

/-- C `free(ptr)`: the block at `ptr` is no longer live. -/
def free (ptr : Ptr) (st : State) : State :=
  { heap := st.heap.filter (fun b => b.addr ≠ ptr), trace := st.trace ++ [.free ptr] }

/-- Modelled from the spec: the handler `LogCallback` of the embedding
environment (declared in `_cgo_export.h`, defined outside `callbacks.c`).
It receives `(level, message)`, borrows the buffer for the duration of the
call and changes nothing the bridge owns; the call is recorded with the
contents of the buffer. -/
def LogCallback (level : alpm_loglevel_t) (s : Ptr) (st : State) : State :=
  { st with trace := st.trace ++ [.LogCallback level s (load st.heap s)] }

/-! ## `callbacks.c` -/

/-- The function `go_alpm_log_cb` of `callbacks.c`. -/
def go_alpm_log_cb (env : Env) (level : alpm_loglevel_t) (fmt : List UInt8)
    (arg : List Arg) (st : State) : State :=
  -- char *s = malloc(128);
  let (s, st) := malloc env 128 st
  -- if (s == NULL) return;
  if s = NULL then st
  else
    -- int length = vsnprintf(s, 128, fmt, arg);
    let (length, st) := vsnprintf env s 128 fmt arg st
    -- if (length > 128) { length = (length + 16) & ~0xf; s = realloc(s, length); }
    let (s, st) :=
      if length > 128 then
        let length := int_and (int_add length 16) (int_not 0xf)
        realloc env s (size_t_of_int length) st
      else (s, st)
    -- if (s != NULL) { LogCallback(level, s); free(s); }
    if s ≠ NULL then
      let st := LogCallback level s st
      free s st
    else st

/-- A log callback a handle can hold: the bridge of this file or some
other function. -/
inductive alpm_cb_log where
  | go_alpm_log_cb
  | other (id : Nat)
deriving DecidableEq

/-- The library handle `alpm_handle_t`: its log callback (`none` when
unset) and everything else it holds. -/
structure alpm_handle_t (α : Type) where
  logcb : Option alpm_cb_log
  rest : α

/-- Modelled from the spec: the registration facility
`alpm_option_set_logcb` of the native library (declared in `alpm.h`, not
part of `callbacks.c`).  It makes `cb` the active log callback of the
handle. -/
def alpm_option_set_logcb {α : Type} (handle : alpm_handle_t α) (cb : alpm_cb_log) :
    alpm_handle_t α :=
  { handle with logcb := some cb }

/-- The function `go_alpm_set_logging` of `callbacks.c`. -/
def go_alpm_set_logging {α : Type} (handle : alpm_handle_t α) : alpm_handle_t α :=
  -- alpm_option_set_logcb(handle, go_alpm_log_cb);
  alpm_option_set_logcb handle .go_alpm_log_cb

/-! ## Observations -/

/-- The calls one invocation makes, in order. -/
def calls (env : Env) (level : alpm_loglevel_t) (fmt : List UInt8) (arg : List Arg)
    (st : State) : List Event :=
  (go_alpm_log_cb env level fmt arg st).trace.drop st.trace.length

/-- Number of calls to the handler in a trace. -/
def handlerCalls : List Event → Nat
  | [] => 0
  | .LogCallback _ _ _ :: t => handlerCalls t + 1
  | _ :: t => handlerCalls t

/-- The sizes requested from `realloc` in a trace. -/
def reallocSizes : List Event → List Nat
  | [] => []
  | .realloc _ size _ :: t => size :: reallocSizes t
  | _ :: t => reallocSizes t

/-- The string a reader of the C string in `buf` sees: the bytes before
the first null byte; `none` when `buf` holds no null byte. -/
def c_str : List UInt8 → Option (List UInt8)
  | [] => none
  | b :: bs => if b = 0 then some [] else (c_str bs).map (b :: ·)

/-! ## A concrete formatting engine and concrete environments -/

/-- The bytes of an ASCII string literal. -/
def ascii (s : String) : List UInt8 := s.toList.map (fun c => c.toNat.toUInt8)

/-- Decimal rendering of `%d`. -/
def fmt_d (i : Int) : List UInt8 :=
  if i < 0 then ascii "-" ++ ascii (Nat.repr i.natAbs) else ascii (Nat.repr i.toNat)

/-- Rendering of a format string for the conversions `%%`, `%s` and `%d`
without flags, width or precision; `none` for anything else. -/
def render : List UInt8 → List Arg → Option (List UInt8)
  | [], _ => some []
  | c :: rest, args =>
    if c ≠ 37 then (render rest args).map (c :: ·)
    else
      match rest, args with
      | d :: rest', args =>
        if d = 37 then (render rest' args).map (37 :: ·)
        else
          match args with
          | .str s :: args' => if d = 115 then (render rest' args').map (s ++ ·) else none
          | .int i :: args' => if d = 100 then (render rest' args').map (fmt_d i ++ ·) else none
          | [] => none
      | [], _ => none

/-- A formatting engine for the conversions `render` covers; a format
string outside them is reported as an output error. -/
def cformat (fmt : List UInt8) (arg : List Arg) : FormatResult :=
  match render fmt arg with
  | some out => .ok out
  | none => .error []

/-- An environment in which both allocations succeed. -/
def envOk : Env :=
  { format := cformat, mallocRet := some 4096, mallocFill := fun _ => 0xAA,
    reallocRet := some 8192, reallocFill := fun _ => 0x55 }

/-- An environment in which the initial allocation fails. -/
def envNoMem : Env := { envOk with mallocRet := none }

/-- An environment in which the growth reallocation fails. -/
def envNoGrow : Env := { envOk with reallocRet := none }

/-- A message of `n` characters `x`. -/
def xs (n : Nat) : List UInt8 := List.replicate n 120

/-! ## Values the code computes, named for the statements below -/

/-- The block `malloc(128)` returns. -/
def freshBuf (env : Env) : List UInt8 := (List.range 128).map env.mallocFill

/-- The bytes `vsnprintf(s, 128, fmt, arg)` writes. -/
def written (env : Env) (fmt : List UInt8) (arg : List Arg) : List UInt8 :=
  (vsnprintf_out (env.format fmt arg)).take 127 ++ [0]

/-- The 128 byte buffer after `vsnprintf(s, 128, fmt, arg)`. -/
def filledBuf (env : Env) (fmt : List UInt8) (arg : List Arg) : List UInt8 :=
  (written env fmt arg ++ (freshBuf env).drop (written env fmt arg).length).take
    (freshBuf env).length

/-- The size passed to `realloc` for a reported length. -/
def growSize (length : Int) : Nat :=
  size_t_of_int (int_and (int_add length 16) (int_not 0xf))

/-- The buffer after a successful `realloc` to `size` bytes. -/
def grownBuf (env : Env) (fmt : List UInt8) (arg : List Arg) (size : Nat) : List UInt8 :=
  (filledBuf env fmt arg).take size ++
    (List.range (size - (filledBuf env fmt arg).length)).map env.reallocFill

/-! ## The heap -/

theorem le_foldr_max (l : List Nat) (a : Nat) (h : a ∈ l) : a ≤ l.foldr max 0 := by
  induction l with
  | nil => cases h
  | cons x t ih =>
    simp only [List.foldr_cons]
    rcases List.mem_cons.mp h with rfl | h
    · exact le_max_left _ _
    · exact le_trans (ih h) (le_max_right _ _)

theorem freshPtr_ne_null (h : Heap) (cand : Ptr) : freshPtr h cand ≠ NULL := by
  unfold freshPtr NULL
  split
  · rename_i hc; exact hc.1
  · exact Nat.succ_ne_zero _

theorem freshPtr_not_mem (h : Heap) (cand : Ptr) : freshPtr h cand ∉ addrs h := by
  unfold freshPtr
  split
  · rename_i hc; exact hc.2
  · intro hm
    have := le_foldr_max _ _ hm
    omega

theorem filter_of_not_mem (h : Heap) (p : Ptr) (hp : p ∉ addrs h) :
    h.filter (fun b => b.addr ≠ p) = h := by
  rw [List.filter_eq_self]
  intro b hb
  have : b.addr ≠ p := fun e => hp (e ▸ List.mem_map_of_mem Block.addr hb)
  simpa using this

theorem filter_append_fresh (h : Heap) (p : Ptr) (b : List UInt8) (hp : p ∉ addrs h) :
    (h ++ [Block.mk p b]).filter (fun x => x.addr ≠ p) = h := by
  rw [List.filter_append, filter_of_not_mem h p hp]
  simp

theorem load_append_fresh (h : Heap) (p : Ptr) (b : List UInt8) (hp : p ∉ addrs h) :
    load (h ++ [Block.mk p b]) p = b := by
  unfold load
  have : h.find? (fun x => x.addr = p) = none := by
    rw [List.find?_eq_none]
    intro x hx
    have : x.addr ≠ p := fun e => hp (e ▸ List.mem_map_of_mem Block.addr hx)
    simpa using this
  simp [List.find?_append, this]

theorem store_append_fresh (h : Heap) (p : Ptr) (b data : List UInt8) (hp : p ∉ addrs h) :
    store (h ++ [Block.mk p b]) p data =
      h ++ [Block.mk p ((data ++ b.drop data.length).take b.length)] := by
  unfold store
  rw [List.map_append]
  congr 1
  · conv_rhs => rw [← List.map_id h]
    apply List.map_congr_left
    intro x hx
    have : x.addr ≠ p := fun e => hp (e ▸ List.mem_map_of_mem Block.addr hx)
    simp [this]
  · simp

theorem malloc_some (env : Env) (size : Nat) (st : State) (cand : Ptr)
    (hm : env.mallocRet = some cand) :
    malloc env size st =
      (freshPtr st.heap cand,
        { heap := st.heap ++ [Block.mk (freshPtr st.heap cand) ((List.range size).map env.mallocFill)],
          trace := st.trace ++ [.malloc size (freshPtr st.heap cand)] }) := by
  simp only [malloc, hm]

theorem vsnprintf_fresh (env : Env) (p : Ptr) (fmt : List UInt8) (arg : List Arg)
    (h : Heap) (tr : List Event) (hp : p ∉ addrs h) :
    vsnprintf env p 128 fmt arg { heap := h ++ [Block.mk p (freshBuf env)], trace := tr } =
      (vsnprintf_ret (env.format fmt arg),
        { heap := h ++ [Block.mk p (filledBuf env fmt arg)],
          trace := tr ++ [.vsnprintf p 128 (vsnprintf_ret (env.format fmt arg))] }) := by
  simp only [vsnprintf, store_append_fresh _ _ _ _ hp, filledBuf, written]
  simp

theorem realloc_fresh (env : Env) (p : Ptr) (size : Nat) (b : List UInt8)
    (h : Heap) (tr : List Event) (hp : p ∉ addrs h) (cand : Ptr)
    (hg : env.reallocRet = some cand) :
    realloc env p size { heap := h ++ [Block.mk p b], trace := tr } =
      (freshPtr h cand,
        { heap := h ++ [Block.mk (freshPtr h cand)
            (b.take size ++ (List.range (size - b.length)).map env.reallocFill)],
          trace := tr ++ [.realloc p size (freshPtr h cand)] }) := by
  simp only [realloc, hg, load_append_fresh _ _ _ hp, filter_append_fresh _ _ _ hp]

theorem realloc_none (env : Env) (p : Ptr) (size : Nat) (st : State)
    (hg : env.reallocRet = none) :
    realloc env p size st = (NULL, { st with trace := st.trace ++ [.realloc p size NULL] }) := by
  simp only [realloc, hg]

theorem callback_free_fresh (level : alpm_loglevel_t) (p : Ptr) (b : List UInt8)
    (h : Heap) (tr : List Event) (hp : p ∉ addrs h) :
    free p (LogCallback level p { heap := h ++ [Block.mk p b], trace := tr }) =
      { heap := h, trace := tr ++ [.LogCallback level p b, .free p] } := by
  simp only [free, LogCallback, load_append_fresh _ _ _ hp, filter_append_fresh _ _ _ hp,
    List.append_assoc, List.singleton_append, List.cons_append, List.nil_append]

theorem go_alpm_log_cb_nomem (env : Env) (level : alpm_loglevel_t) (fmt : List UInt8)
    (arg : List Arg) (st : State) (hm : env.mallocRet = none) :
    go_alpm_log_cb env level fmt arg st =
      { heap := st.heap, trace := st.trace ++ [.malloc 128 NULL] } := by
  simp [go_alpm_log_cb, malloc, hm]

theorem go_alpm_log_cb_fit (env : Env) (level : alpm_loglevel_t) (fmt : List UInt8)
    (arg : List Arg) (st : State) (cand : Ptr) (hm : env.mallocRet = some cand)
    (hr : ¬ vsnprintf_ret (env.format fmt arg) > 128) :
    go_alpm_log_cb env level fmt arg st =
      { heap := st.heap,
        trace := st.trace ++
          [.malloc 128 (freshPtr st.heap cand),
           .vsnprintf (freshPtr st.heap cand) 128 (vsnprintf_ret (env.format fmt arg)),
           .LogCallback level (freshPtr st.heap cand) (filledBuf env fmt arg),
           .free (freshPtr st.heap cand)] } := by
  have h0 := freshPtr_ne_null st.heap cand
  have h1 := freshPtr_not_mem st.heap cand
  have hv := vsnprintf_fresh env _ fmt arg st.heap (st.trace ++ [.malloc 128 (freshPtr st.heap cand)]) h1
  unfold freshBuf at hv
  simp only [go_alpm_log_cb, malloc_some env 128 st cand hm, h0, if_false, hv, hr,
    ne_eq, not_false_eq_true, if_true, callback_free_fresh _ _ _ _ _ h1,
    List.append_assoc, List.singleton_append, List.cons_append, List.nil_append]

theorem go_alpm_log_cb_nogrow (env : Env) (level : alpm_loglevel_t) (fmt : List UInt8)
    (arg : List Arg) (st : State) (cand : Ptr) (hm : env.mallocRet = some cand)
    (hr : vsnprintf_ret (env.format fmt arg) > 128) (hg : env.reallocRet = none) :
    go_alpm_log_cb env level fmt arg st =
      { heap := st.heap ++ [Block.mk (freshPtr st.heap cand) (filledBuf env fmt arg)],
        trace := st.trace ++
          [.malloc 128 (freshPtr st.heap cand),
           .vsnprintf (freshPtr st.heap cand) 128 (vsnprintf_ret (env.format fmt arg)),
           .realloc (freshPtr st.heap cand)
              (growSize (vsnprintf_ret (env.format fmt arg))) NULL] } := by
  have h0 := freshPtr_ne_null st.heap cand
  have h1 := freshPtr_not_mem st.heap cand
  have hv := vsnprintf_fresh env _ fmt arg st.heap (st.trace ++ [.malloc 128 (freshPtr st.heap cand)]) h1
  unfold freshBuf at hv
  simp only [go_alpm_log_cb, malloc_some env 128 st cand hm, h0, if_false, hv, hr,
    ne_eq, not_true_eq_false, if_true, realloc_none _ _ _ _ hg, growSize,
    List.append_assoc, List.singleton_append, List.cons_append, List.nil_append]

theorem go_alpm_log_cb_grow (env : Env) (level : alpm_loglevel_t) (fmt : List UInt8)
    (arg : List Arg) (st : State) (cand cand' : Ptr) (hm : env.mallocRet = some cand)
    (hr : vsnprintf_ret (env.format fmt arg) > 128) (hg : env.reallocRet = some cand') :
    go_alpm_log_cb env level fmt arg st =
      { heap := st.heap,
        trace := st.trace ++
          [.malloc 128 (freshPtr st.heap cand),
           .vsnprintf (freshPtr st.heap cand) 128 (vsnprintf_ret (env.format fmt arg)),
           .realloc (freshPtr st.heap cand)
              (growSize (vsnprintf_ret (env.format fmt arg))) (freshPtr st.heap cand'),
           .LogCallback level (freshPtr st.heap cand')
              (grownBuf env fmt arg (growSize (vsnprintf_ret (env.format fmt arg)))),
           .free (freshPtr st.heap cand')] } := by
  have h0 := freshPtr_ne_null st.heap cand
  have h1 := freshPtr_not_mem st.heap cand
  have h0' := freshPtr_ne_null st.heap cand'
  have h1' := freshPtr_not_mem st.heap cand'
  have hv := vsnprintf_fresh env _ fmt arg st.heap (st.trace ++ [.malloc 128 (freshPtr st.heap cand)]) h1
  unfold freshBuf at hv
  simp only [go_alpm_log_cb, malloc_some env 128 st cand hm, h0, h0', if_false, hv, hr,
    ne_eq, not_false_eq_true, if_true, realloc_fresh _ _ _ _ _ _ h1 _ hg,
    callback_free_fresh _ _ _ _ _ h1', growSize, grownBuf,
    List.append_assoc, List.singleton_append, List.cons_append, List.nil_append]

/-! ## Arithmetic of the growth size -/

theorem and_mask (x : Nat) (hx : x < 2 ^ 32) : x &&& 0xFFFFFFF0 = 16 * (x / 16) := by
  have hm : (0xFFFFFFF0 : Nat) = 2 ^ 4 * (2 ^ 28 - 1) := by norm_num
  have h16 : (16 : Nat) = 2 ^ 4 := by norm_num
  apply Nat.eq_of_testBit_eq
  intro i
  rw [Nat.testBit_land, hm, h16, Nat.testBit_mul_pow_two, Nat.testBit_mul_pow_two,
    Nat.testBit_two_pow_sub_one, ← Nat.shiftRight_eq_div_pow, Nat.testBit_shiftRight]
  by_cases h4 : 4 ≤ i
  · have e : 4 + (i - 4) = i := by omega
    by_cases h32 : i < 32
    · have : i - 4 < 28 := by omega
      simp [h4, this, e]
    · have hb : x.testBit i = false :=
        Nat.testBit_lt_two_pow (lt_of_lt_of_le hx (Nat.pow_le_pow_right (by norm_num) (by omega)))
      simp [h4, e, hb]
  · simp [h4]

theorem toU32_lt (x : Int) : toU32 x < 2 ^ 32 := by
  unfold toU32
  omega

theorem toU32_not_0xf : toU32 (int_not 0xf) = 0xFFFFFFF0 := by decide

theorem int_and_not_0xf (a : Int) :
    int_and a (int_not 0xf) = ofU32 (16 * (toU32 a / 16)) := by
  unfold int_and
  rw [toU32_not_0xf, and_mask _ (toU32_lt a)]

theorem int_grow_eq (n : Int) (h0 : 0 ≤ n) (h1 : n ≤ INT_MAX - 16) :
    int_and (int_add n 16) (int_not 0xf) = 16 * (n / 16 + 1) := by
  rw [int_and_not_0xf]
  unfold INT_MAX at h1
  have ha : int_add n 16 = n + 16 := by
    unfold int_add toU32 ofU32
    split <;> omega
  rw [ha]
  unfold toU32 ofU32
  split <;> omega

theorem growSize_eq (n : Int) (h0 : 0 ≤ n) (h1 : n ≤ INT_MAX - 16) :
    growSize n = 16 * (n.toNat / 16 + 1) := by
  unfold growSize
  rw [int_grow_eq n h0 h1]
  unfold size_t_of_int
  unfold INT_MAX at h1
  omega

theorem growSize_ge (n : Int) (h0 : 128 < n) (h1 : n ≤ INT_MAX) : 128 ≤ growSize n := by
  unfold growSize
  rw [int_and_not_0xf]
  unfold INT_MAX at h1
  unfold int_add size_t_of_int toU32 ofU32
  split <;> split <;> omega

theorem vsnprintf_ret_le (r : FormatResult) : vsnprintf_ret r ≤ INT_MAX := by
  unfold vsnprintf_ret
  cases r with
  | ok out => simp only; split <;> simp_all [INT_MAX]
  | error w => simp [INT_MAX]

theorem vsnprintf_ret_ok (out : List UInt8) (h : (out.length : Int) ≤ INT_MAX) :
    vsnprintf_ret (.ok out) = out.length := by
  simp [vsnprintf_ret, h]

/-! ## Buffer contents -/

theorem freshBuf_length (env : Env) : (freshBuf env).length = 128 := by
  simp [freshBuf]

theorem written_length (env : Env) (fmt : List UInt8) (arg : List Arg) :
    (written env fmt arg).length = min 127 (vsnprintf_out (env.format fmt arg)).length + 1 := by
  simp [written]

theorem filledBuf_eq (env : Env) (fmt : List UInt8) (arg : List Arg) :
    filledBuf env fmt arg =
      written env fmt arg ++ (freshBuf env).drop (written env fmt arg).length := by
  unfold filledBuf
  apply List.take_of_length_le
  rw [List.length_append, List.length_drop, freshBuf_length, written_length]
  omega

theorem filledBuf_length (env : Env) (fmt : List UInt8) (arg : List Arg) :
    (filledBuf env fmt arg).length = 128 := by
  rw [filledBuf_eq, List.length_append, List.length_drop, freshBuf_length, written_length]
  omega

theorem filledBuf_take (env : Env) (fmt : List UInt8) (arg : List Arg) :
    (filledBuf env fmt arg).take
        (((vsnprintf_out (env.format fmt arg)).take 127).length + 1) =
      (vsnprintf_out (env.format fmt arg)).take 127 ++ [0] := by
  rw [filledBuf_eq]
  have h : ((vsnprintf_out (env.format fmt arg)).take 127).length + 1 =
      (written env fmt arg).length := by simp [written]
  rw [h, List.take_left']
  · rfl
  · rfl

theorem grownBuf_eq (env : Env) (fmt : List UInt8) (arg : List Arg) (size : Nat)
    (h : 128 ≤ size) :
    grownBuf env fmt arg size =
      filledBuf env fmt arg ++ (List.range (size - 128)).map env.reallocFill := by
  unfold grownBuf
  rw [List.take_of_length_le (by rw [filledBuf_length]; exact h), filledBuf_length]

theorem grownBuf_length (env : Env) (fmt : List UInt8) (arg : List Arg) (size : Nat)
    (h : 128 ≤ size) : (grownBuf env fmt arg size).length = size := by
  rw [grownBuf_eq env fmt arg size h, List.length_append, filledBuf_length]
  simp
  omega

theorem grownBuf_take (env : Env) (fmt : List UInt8) (arg : List Arg) (size : Nat)
    (h : 128 ≤ size) :
    (grownBuf env fmt arg size).take
        (((vsnprintf_out (env.format fmt arg)).take 127).length + 1) =
      (vsnprintf_out (env.format fmt arg)).take 127 ++ [0] := by
  rw [grownBuf_eq env fmt arg size h, List.take_append_of_le_length, filledBuf_take]
  rw [filledBuf_length, List.length_take]
  omega

/-! ## C strings -/

theorem c_str_append_zero (m rest : List UInt8) (h : (0 : UInt8) ∉ m) :
    c_str (m ++ 0 :: rest) = some m := by
  induction m with
  | nil => simp [c_str]
  | cons a t ih =>
    have ha : a ≠ 0 := fun e => h (e ▸ List.mem_cons_self _ _)
    have ht : (0 : UInt8) ∉ t := fun e => h (List.mem_cons_of_mem _ e)
    simp [c_str, ha, ih ht]

theorem c_str_of_take (buf m : List UInt8) (h : buf.take (m.length + 1) = m ++ [0])
    (hm : (0 : UInt8) ∉ m) : c_str buf = some m := by
  have e : buf = m ++ 0 :: buf.drop (m.length + 1) := by
    conv_lhs => rw [← List.take_append_drop (m.length + 1) buf, h]
    simp
  rw [e]
  exact c_str_append_zero m _ hm

theorem zero_mem_of_take (buf m : List UInt8) (h : buf.take (m.length + 1) = m ++ [0]) :
    (0 : UInt8) ∈ buf := by
  have : (0 : UInt8) ∈ buf.take (m.length + 1) := by rw [h]; simp
  exact List.mem_of_mem_take this

theorem c_str_of_mem (buf : List UInt8) (h : (0 : UInt8) ∈ buf) :
    ∃ i, i < buf.length ∧ buf.get? i = some 0 ∧ (∀ j, j < i → buf.get? j ≠ some 0) ∧
      c_str buf = some (buf.take i) := by
  induction buf with
  | nil => cases h
  | cons a t ih =>
    by_cases ha : a = 0
    · refine ⟨0, by simp, by simp [ha], by intro j hj; omega, by simp [c_str, ha]⟩
    · have ht : (0 : UInt8) ∈ t := by
        rcases List.mem_cons.mp h with e | e
        · exact absurd e.symm ha
        · exact e
      obtain ⟨i, hi, hz, hmin, hc⟩ := ih ht
      refine ⟨i + 1, by simp; omega, by simpa using hz, ?_, by simp [c_str, ha, hc]⟩
      intro j hj
      cases j with
      | zero => simpa using ha
      | succ k => simpa using hmin k (by omega)

/-! ## The calls of one invocation -/

theorem calls_nomem (env : Env) (level : alpm_loglevel_t) (fmt : List UInt8)
    (arg : List Arg) (st : State) (hm : env.mallocRet = none) :
    calls env level fmt arg st = [.malloc 128 NULL] := by
  simp [calls, go_alpm_log_cb_nomem env level fmt arg st hm]

theorem calls_fit (env : Env) (level : alpm_loglevel_t) (fmt : List UInt8)
    (arg : List Arg) (st : State) (cand : Ptr) (hm : env.mallocRet = some cand)
    (hr : ¬ vsnprintf_ret (env.format fmt arg) > 128) :
    calls env level fmt arg st =
      [.malloc 128 (freshPtr st.heap cand),
       .vsnprintf (freshPtr st.heap cand) 128 (vsnprintf_ret (env.format fmt arg)),
       .LogCallback level (freshPtr st.heap cand) (filledBuf env fmt arg),
       .free (freshPtr st.heap cand)] := by
  simp [calls, go_alpm_log_cb_fit env level fmt arg st cand hm hr]

theorem calls_nogrow (env : Env) (level : alpm_loglevel_t) (fmt : List UInt8)
    (arg : List Arg) (st : State) (cand : Ptr) (hm : env.mallocRet = some cand)
    (hr : vsnprintf_ret (env.format fmt arg) > 128) (hg : env.reallocRet = none) :
    calls env level fmt arg st =
      [.malloc 128 (freshPtr st.heap cand),
       .vsnprintf (freshPtr st.heap cand) 128 (vsnprintf_ret (env.format fmt arg)),
       .realloc (freshPtr st.heap cand) (growSize (vsnprintf_ret (env.format fmt arg))) NULL] := by
  simp [calls, go_alpm_log_cb_nogrow env level fmt arg st cand hm hr hg]

theorem calls_grow (env : Env) (level : alpm_loglevel_t) (fmt : List UInt8)
    (arg : List Arg) (st : State) (cand cand' : Ptr) (hm : env.mallocRet = some cand)
    (hr : vsnprintf_ret (env.format fmt arg) > 128) (hg : env.reallocRet = some cand') :
    calls env level fmt arg st =
      [.malloc 128 (freshPtr st.heap cand),
       .vsnprintf (freshPtr st.heap cand) 128 (vsnprintf_ret (env.format fmt arg)),
       .realloc (freshPtr st.heap cand) (growSize (vsnprintf_ret (env.format fmt arg)))
          (freshPtr st.heap cand'),
       .LogCallback level (freshPtr st.heap cand')
          (grownBuf env fmt arg (growSize (vsnprintf_ret (env.format fmt arg)))),
       .free (freshPtr st.heap cand')] := by
  simp [calls, go_alpm_log_cb_grow env level fmt arg st cand cand' hm hr hg]

/-- The trace after an invocation is the trace before it followed by the
calls of the invocation. -/
theorem trace_eq_append_calls (env : Env) (level : alpm_loglevel_t) (fmt : List UInt8)
    (arg : List Arg) (st : State) :
    (go_alpm_log_cb env level fmt arg st).trace = st.trace ++ calls env level fmt arg st := by
  cases hm : env.mallocRet with
  | none => rw [calls_nomem env level fmt arg st hm, go_alpm_log_cb_nomem env level fmt arg st hm]
  | some cand =>
    by_cases hr : vsnprintf_ret (env.format fmt arg) > 128
    · cases hg : env.reallocRet with
      | none =>
        rw [calls_nogrow env level fmt arg st cand hm hr hg,
          go_alpm_log_cb_nogrow env level fmt arg st cand hm hr hg]
      | some cand' =>
        rw [calls_grow env level fmt arg st cand cand' hm hr hg,
          go_alpm_log_cb_grow env level fmt arg st cand cand' hm hr hg]
    · rw [calls_fit env level fmt arg st cand hm hr,
        go_alpm_log_cb_fit env level fmt arg st cand hm hr]

/-- The heap after an invocation equals the heap before it on every path
but the one where the growth reallocation fails. -/
theorem heap_restored (env : Env) (level : alpm_loglevel_t) (fmt : List UInt8)
    (arg : List Arg) (st : State)
    (h : ¬ (env.mallocRet ≠ none ∧ 128 < vsnprintf_ret (env.format fmt arg) ∧
      env.reallocRet = none)) :
    (go_alpm_log_cb env level fmt arg st).heap = st.heap := by
  cases hm : env.mallocRet with
  | none => rw [go_alpm_log_cb_nomem env level fmt arg st hm]
  | some cand =>
    by_cases hr : vsnprintf_ret (env.format fmt arg) > 128
    · cases hg : env.reallocRet with
      | none => exact absurd ⟨by simp [hm], hr, hg⟩ h
      | some cand' => rw [go_alpm_log_cb_grow env level fmt arg st cand cand' hm hr hg]
    · rw [go_alpm_log_cb_fit env level fmt arg st cand hm hr]

/-! ## The concrete formatting engine -/

theorem render_xs (n : Nat) (arg : List Arg) : render (xs n) arg = some (xs n) := by
  induction n with
  | zero => rfl
  | succ k ih =>
    have e : xs (k + 1) = 120 :: xs k := rfl
    have h : (120 : UInt8) ≠ 37 := by decide
    rw [e, render.eq_def]
    simp only [h, ne_eq, not_false_eq_true, if_true, ih, Option.map_some']

theorem cformat_xs (n : Nat) (arg : List Arg) : cformat (xs n) arg = .ok (xs n) := by
  simp [cformat, render_xs]

theorem envOk_format : envOk.format = cformat := rfl

theorem envNoGrow_format : envNoGrow.format = cformat := rfl

theorem xs_length (n : Nat) : (xs n).length = n := by
  simp [xs]

/-! ## The claims -/

/-- C1: when the rendered message has at most 127 characters and the
initial allocation succeeds, the invocation calls `malloc`, `vsnprintf`,
the handler and `free`, in this order and nothing else: the handler is
called exactly once, with the level it was given and a 128 byte buffer that
holds the whole rendered message followed by a null byte, and `realloc` is
never called. -/
theorem go_alpm_log_cb_short (env : Env) (level : alpm_loglevel_t) (fmt : List UInt8)
    (arg : List Arg) (st : State) (out : List UInt8) (cand : Ptr)
    (hfmt : env.format fmt arg = .ok out) (hlen : out.length ≤ 127)
    (hm : env.mallocRet = some cand) :
    ∃ s buf,
      calls env level fmt arg st =
        [.malloc 128 s, .vsnprintf s 128 out.length, .LogCallback level s buf, .free s] ∧
      handlerCalls (calls env level fmt arg st) = 1 ∧
      reallocSizes (calls env level fmt arg st) = [] ∧
      buf.length = 128 ∧
      buf.take (out.length + 1) = out ++ [0] ∧
      ((0 : UInt8) ∉ out → c_str buf = some out) := by
  have hint : (out.length : Int) ≤ INT_MAX := by unfold INT_MAX; omega
  have hret : vsnprintf_ret (env.format fmt arg) = out.length := by
    rw [hfmt, vsnprintf_ret_ok out hint]
  have hr : ¬ vsnprintf_ret (env.format fmt arg) > 128 := by rw [hret]; omega
  have hc := calls_fit env level fmt arg st cand hm hr
  rw [hret] at hc
  have ht : (filledBuf env fmt arg).take (out.length + 1) = out ++ [0] := by
    have h := filledBuf_take env fmt arg
    have e : out.take 127 = out := List.take_of_length_le (by omega)
    rw [hfmt] at h
    simp only [vsnprintf_out] at h
    rwa [e] at h
  refine ⟨_, _, hc, ?_, ?_, filledBuf_length env fmt arg, ht, ?_⟩
  · rw [hc]; rfl
  · rw [hc]; rfl
  · intro h0
    exact c_str_of_take _ _ ht h0

/-- C1, at the input of the specification: format `disk %s at %d%%` with
arguments `("full", 98)` delivers `disk full at 98%`. -/
theorem go_alpm_log_cb_short_witness :
    ∃ s buf,
      calls envOk 1 (ascii "disk %s at %d%%") [.str (ascii "full"), .int 98] ⟨[], []⟩ =
        [.malloc 128 s, .vsnprintf s 128 (ascii "disk full at 98%").length,
         .LogCallback 1 s buf, .free s] ∧
      handlerCalls
        (calls envOk 1 (ascii "disk %s at %d%%") [.str (ascii "full"), .int 98] ⟨[], []⟩) = 1 ∧
      reallocSizes
        (calls envOk 1 (ascii "disk %s at %d%%") [.str (ascii "full"), .int 98] ⟨[], []⟩) = [] ∧
      c_str buf = some (ascii "disk full at 98%") := by
  obtain ⟨s, buf, h1, h2, h3, _, _, h6⟩ :=
    go_alpm_log_cb_short envOk 1 (ascii "disk %s at %d%%") [.str (ascii "full"), .int 98]
      ⟨[], []⟩ (ascii "disk full at 98%") 4096 (by decide) (by decide) rfl
  exact ⟨s, buf, h1, h2, h3, h6 (by decide)⟩

/-- C2, refuted as stated: a message of 144 characters makes the code ask
`realloc` for 160 bytes, while the smallest multiple of 16 that is at least
144 is 144 itself. -/
theorem realloc_size_144 :
    envOk.format (xs 144) [] = .ok (xs 144) ∧ (xs 144).length = 144 ∧
    reallocSizes (calls envOk 1 (xs 144) [] ⟨[], []⟩) = [160] ∧
    (16 ∣ 144 ∧ 144 ≤ 144 ∧ 144 < 160) := by
  have hf : envOk.format (xs 144) [] = .ok (xs 144) := by
    rw [envOk_format]; exact cformat_xs 144 []
  have hret : vsnprintf_ret (envOk.format (xs 144) []) = 144 := by
    rw [hf, vsnprintf_ret_ok _ (by rw [xs_length]; unfold INT_MAX; omega), xs_length]; rfl
  have hc := calls_grow envOk 1 (xs 144) [] ⟨[], []⟩ 4096 8192 rfl (by rw [hret]; omega) rfl
  rw [hret] at hc
  refine ⟨hf, xs_length 144, ?_, by decide⟩
  rw [hc]
  simp only [reallocSizes]
  rw [growSize_eq 144 (by omega) (by unfold INT_MAX; omega)]
  rfl

/-- C2 (amended): for every rendered length `n` with `128 < n` and
`n ≤ INT_MAX - 16`, when the initial allocation succeeds, the invocation
calls `realloc` exactly once and the size it asks for is the smallest
multiple of 16 strictly greater than `n`. -/
theorem go_alpm_log_cb_realloc_size (env : Env) (level : alpm_loglevel_t) (fmt : List UInt8)
    (arg : List Arg) (st : State) (out : List UInt8) (cand : Ptr)
    (hfmt : env.format fmt arg = .ok out) (hlo : 128 < out.length)
    (hhi : (out.length : Int) ≤ INT_MAX - 16) (hm : env.mallocRet = some cand) :
    ∃ size, reallocSizes (calls env level fmt arg st) = [size] ∧
      16 ∣ size ∧ out.length < size ∧ ∀ m, 16 ∣ m → out.length < m → size ≤ m := by
  have hint : (out.length : Int) ≤ INT_MAX := by unfold INT_MAX at *; omega
  have hret : vsnprintf_ret (env.format fmt arg) = out.length := by
    rw [hfmt, vsnprintf_ret_ok out hint]
  have hr : vsnprintf_ret (env.format fmt arg) > 128 := by rw [hret]; omega
  have hs : growSize (out.length : Int) = 16 * (out.length / 16 + 1) := by
    rw [growSize_eq _ (by omega) hhi]; simp
  refine ⟨16 * (out.length / 16 + 1), ?_, Dvd.intro _ rfl, by omega, ?_⟩
  · cases hg : env.reallocRet with
    | none =>
      rw [calls_nogrow env level fmt arg st cand hm hr hg, hret, hs]; rfl
    | some cand' =>
      rw [calls_grow env level fmt arg st cand cand' hm hr hg, hret, hs]; rfl
  · intro m hd hlt
    obtain ⟨k, rfl⟩ := hd
    omega

/-- C2 (amended), at a message of 200 characters: the size is 208. -/
theorem go_alpm_log_cb_realloc_size_witness :
    ∃ size, reallocSizes (calls envOk 1 (xs 200) [] ⟨[], []⟩) = [size] ∧
      16 ∣ size ∧ (xs 200).length < size ∧ ∀ m, 16 ∣ m → (xs 200).length < m → size ≤ m :=
  go_alpm_log_cb_realloc_size envOk 1 (xs 200) [] ⟨[], []⟩ (xs 200) 4096
    (by rw [envOk_format]; exact cformat_xs 200 [])
    (by rw [xs_length]; omega) (by rw [xs_length]; unfold INT_MAX; omega) rfl

/-- C3, refuted as stated: with a message of 200 characters, a successful
initial allocation and a failing growth reallocation, the handler is not
called although the initial allocation did not fail. -/
theorem handler_skipped_when_growth_fails :
    envNoGrow.mallocRet ≠ none ∧
    calls envNoGrow 1 (xs 200) [] ⟨[], []⟩ =
      [.malloc 128 4096, .vsnprintf 4096 128 200, .realloc 4096 208 NULL] ∧
    handlerCalls (calls envNoGrow 1 (xs 200) [] ⟨[], []⟩) = 0 := by
  have hf : envNoGrow.format (xs 200) [] = .ok (xs 200) := by
    rw [envNoGrow_format]; exact cformat_xs 200 []
  have hret : vsnprintf_ret (envNoGrow.format (xs 200) []) = 200 := by
    rw [hf, vsnprintf_ret_ok _ (by rw [xs_length]; unfold INT_MAX; omega), xs_length]; rfl
  have hc := calls_nogrow envNoGrow 1 (xs 200) [] ⟨[], []⟩ 4096 rfl (by rw [hret]; omega) rfl
  rw [hret, growSize_eq 200 (by omega) (by unfold INT_MAX; omega)] at hc
  refine ⟨by decide, ?_, ?_⟩
  · rw [hc]; rfl
  · rw [hc]; rfl

/-- C3 (amended): every invocation calls the handler exactly once, except
when the initial allocation fails, or when `vsnprintf` reports a length
above 128 and the growth reallocation fails; in these two cases it calls the
handler zero times. -/
theorem handlerCalls_go_alpm_log_cb (env : Env) (level : alpm_loglevel_t)
    (fmt : List UInt8) (arg : List Arg) (st : State) :
    handlerCalls (calls env level fmt arg st) =
      if env.mallocRet = none ∨
          (128 < vsnprintf_ret (env.format fmt arg) ∧ env.reallocRet = none)
      then 0 else 1 := by
  cases hm : env.mallocRet with
  | none => rw [calls_nomem env level fmt arg st hm]; simp [handlerCalls]
  | some cand =>
    by_cases hr : vsnprintf_ret (env.format fmt arg) > 128
    · cases hg : env.reallocRet with
      | none =>
        rw [calls_nogrow env level fmt arg st cand hm hr hg]
        have : 128 < vsnprintf_ret (env.format fmt arg) := hr
        simp [handlerCalls, this]
      | some cand' =>
        rw [calls_grow env level fmt arg st cand cand' hm hr hg]
        simp [handlerCalls]
    · rw [calls_fit env level fmt arg st cand hm hr]
      have : ¬ 128 < vsnprintf_ret (env.format fmt arg) := hr
      simp [handlerCalls, this]

/-- C4: when the initial allocation fails, the only call the invocation
makes is the failed `malloc(128)`: the handler is not called, nothing is
formatted or reallocated, and the live blocks after the call are those
before it. -/
theorem go_alpm_log_cb_malloc_fails (env : Env) (level : alpm_loglevel_t)
    (fmt : List UInt8) (arg : List Arg) (st : State) (hm : env.mallocRet = none) :
    calls env level fmt arg st = [.malloc 128 NULL] ∧
    handlerCalls (calls env level fmt arg st) = 0 ∧
    reallocSizes (calls env level fmt arg st) = [] ∧
    (go_alpm_log_cb env level fmt arg st).heap = st.heap := by
  have hc := calls_nomem env level fmt arg st hm
  refine ⟨hc, ?_, ?_, ?_⟩
  · rw [hc]; rfl
  · rw [hc]; rfl
  · rw [go_alpm_log_cb_nomem env level fmt arg st hm]

/-- C4, at a heap with one live block and a message that would fit. -/
theorem go_alpm_log_cb_malloc_fails_witness :
    calls envNoMem 4 (ascii "disk %s at %d%%") [.str (ascii "full"), .int 98]
      ⟨[⟨4096, [1, 2, 3]⟩], []⟩ = [.malloc 128 NULL] ∧
    handlerCalls (calls envNoMem 4 (ascii "disk %s at %d%%") [.str (ascii "full"), .int 98]
      ⟨[⟨4096, [1, 2, 3]⟩], []⟩) = 0 ∧
    reallocSizes (calls envNoMem 4 (ascii "disk %s at %d%%") [.str (ascii "full"), .int 98]
      ⟨[⟨4096, [1, 2, 3]⟩], []⟩) = [] ∧
    (go_alpm_log_cb envNoMem 4 (ascii "disk %s at %d%%") [.str (ascii "full"), .int 98]
      ⟨[⟨4096, [1, 2, 3]⟩], []⟩).heap = [⟨4096, [1, 2, 3]⟩] :=
  go_alpm_log_cb_malloc_fails envNoMem 4 (ascii "disk %s at %d%%")
    [.str (ascii "full"), .int 98] ⟨[⟨4096, [1, 2, 3]⟩], []⟩ rfl

/-- C5, the failing input: with a message of 200 characters, a successful
initial allocation and a failing growth reallocation, the invocation
returns without calling `free`, and the 128 byte block it allocated is
still live on an initially empty heap. -/
theorem go_alpm_log_cb_leaks_when_growth_fails :
    calls envNoGrow 1 (xs 200) [] ⟨[], []⟩ =
      [.malloc 128 4096, .vsnprintf 4096 128 200, .realloc 4096 208 NULL] ∧
    (go_alpm_log_cb envNoGrow 1 (xs 200) [] ⟨[], []⟩).heap =
      [⟨4096, filledBuf envNoGrow (xs 200) []⟩] ∧
    (filledBuf envNoGrow (xs 200) []).length = 128 ∧
    (go_alpm_log_cb envNoGrow 1 (xs 200) [] ⟨[], []⟩).heap ≠ [] := by
  have hf : envNoGrow.format (xs 200) [] = .ok (xs 200) := by
    rw [envNoGrow_format]; exact cformat_xs 200 []
  have hret : vsnprintf_ret (envNoGrow.format (xs 200) []) = 200 := by
    rw [hf, vsnprintf_ret_ok _ (by rw [xs_length]; unfold INT_MAX; omega), xs_length]; rfl
  have hc := calls_nogrow envNoGrow 1 (xs 200) [] ⟨[], []⟩ 4096 rfl (by rw [hret]; omega) rfl
  have hh := go_alpm_log_cb_nogrow envNoGrow 1 (xs 200) [] ⟨[], []⟩ 4096 rfl
    (by rw [hret]; omega) rfl
  rw [hret, growSize_eq 200 (by omega) (by unfold INT_MAX; omega)] at hc
  refine ⟨?_, ?_, filledBuf_length _ _ _, ?_⟩
  · rw [hc]; rfl
  · rw [hh]; rfl
  · rw [hh]; simp

/-- C6: whenever the handler is called, the buffer it is given holds a null
byte within its capacity, and the message read from it is the bytes before
the first null byte; the capacity is 128 when no reallocation was made and
the size asked from `realloc` otherwise. -/
theorem handler_buffer_terminated (env : Env) (level : alpm_loglevel_t)
    (fmt : List UInt8) (arg : List Arg) (st : State)
    (lvl : alpm_loglevel_t) (s : Ptr) (buf : List UInt8)
    (h : Event.LogCallback lvl s buf ∈ calls env level fmt arg st) :
    ((reallocSizes (calls env level fmt arg st) = [] ∧ buf.length = 128) ∨
      reallocSizes (calls env level fmt arg st) = [buf.length]) ∧
    ∃ i, i < buf.length ∧ buf.get? i = some 0 ∧ (∀ j, j < i → buf.get? j ≠ some 0) ∧
      c_str buf = some (buf.take i) := by
  cases hm : env.mallocRet with
  | none =>
    rw [calls_nomem env level fmt arg st hm] at h
    simp at h
  | some cand =>
    by_cases hr : vsnprintf_ret (env.format fmt arg) > 128
    · cases hg : env.reallocRet with
      | none =>
        rw [calls_nogrow env level fmt arg st cand hm hr hg] at h
        simp at h
      | some cand' =>
        have hc := calls_grow env level fmt arg st cand cand' hm hr hg
        have hge := growSize_ge _ hr (vsnprintf_ret_le _)
        rw [hc] at h
        simp only [List.mem_cons, List.mem_singleton, Event.LogCallback.injEq,
          reduceCtorEq, false_or, or_false, List.not_mem_nil] at h
        obtain ⟨_, _, rfl⟩ := h
        refine ⟨Or.inr ?_, c_str_of_mem _ (zero_mem_of_take _ _ (grownBuf_take env fmt arg _ hge))⟩
        rw [hc, grownBuf_length env fmt arg _ hge]
        rfl
    · have hc := calls_fit env level fmt arg st cand hm hr
      rw [hc] at h
      simp only [List.mem_cons, List.mem_singleton, Event.LogCallback.injEq,
        reduceCtorEq, false_or, or_false, List.not_mem_nil] at h
      obtain ⟨_, _, rfl⟩ := h
      refine ⟨Or.inl ⟨?_, filledBuf_length env fmt arg⟩,
        c_str_of_mem _ (zero_mem_of_take _ _ (filledBuf_take env fmt arg))⟩
      rw [hc]
      rfl

/-- C6, on the growth path: a message of 200 characters, both allocations
succeeding, and the 208 byte buffer given to the handler. -/
theorem handler_buffer_terminated_witness :
    ((reallocSizes (calls envOk 1 (xs 200) [] ⟨[], []⟩) = [] ∧
        (grownBuf envOk (xs 200) [] 208).length = 128) ∨
      reallocSizes (calls envOk 1 (xs 200) [] ⟨[], []⟩) =
        [(grownBuf envOk (xs 200) [] 208).length]) ∧
    ∃ i, i < (grownBuf envOk (xs 200) [] 208).length ∧
      (grownBuf envOk (xs 200) [] 208).get? i = some 0 ∧
      (∀ j, j < i → (grownBuf envOk (xs 200) [] 208).get? j ≠ some 0) ∧
      c_str (grownBuf envOk (xs 200) [] 208) = some ((grownBuf envOk (xs 200) [] 208).take i) := by
  have hf : envOk.format (xs 200) [] = .ok (xs 200) := by
    rw [envOk_format]; exact cformat_xs 200 []
  have hret : vsnprintf_ret (envOk.format (xs 200) []) = 200 := by
    rw [hf, vsnprintf_ret_ok _ (by rw [xs_length]; unfold INT_MAX; omega), xs_length]; rfl
  have hc := calls_grow envOk 1 (xs 200) [] ⟨[], []⟩ 4096 8192 rfl (by rw [hret]; omega) rfl
  rw [hret, growSize_eq 200 (by omega) (by unfold INT_MAX; omega)] at hc
  exact handler_buffer_terminated envOk 1 (xs 200) [] ⟨[], []⟩ 1 8192
    (grownBuf envOk (xs 200) [] 208) (by rw [hc]; simp [freshPtr, addrs])

/-- C7: when the rendered message has more than 128 characters and the
growth reallocation is made and succeeds, the invocation calls `malloc`,
`vsnprintf`, `realloc`, the handler and `free`, in this order and nothing
else: `vsnprintf` is not called again after the growth, and the buffer
given to the handler holds the first 127 characters of the rendered message
followed by a null byte. -/
theorem go_alpm_log_cb_ships_truncated (env : Env) (level : alpm_loglevel_t)
    (fmt : List UInt8) (arg : List Arg) (st : State) (out : List UInt8)
    (s : Ptr) (size : Nat) (q : Ptr)
    (hfmt : env.format fmt arg = .ok out) (hlen : 128 < out.length)
    (hgrow : Event.realloc s size q ∈ calls env level fmt arg st) (hq : q ≠ NULL) :
    ∃ buf,
      calls env level fmt arg st =
        [.malloc 128 s, .vsnprintf s 128 out.length, .realloc s size q,
         .LogCallback level q buf, .free q] ∧
      buf.length = size ∧
      buf.take 128 = out.take 127 ++ [0] ∧
      ((0 : UInt8) ∉ out.take 127 → c_str buf = some (out.take 127)) ∧
      out.take 127 ≠ out := by
  have hne : out.take 127 ≠ out := by
    intro e
    have := congrArg List.length e
    rw [List.length_take] at this
    omega
  have h127 : (out.take 127).length = 127 := by rw [List.length_take]; omega
  cases hm : env.mallocRet with
  | none =>
    rw [calls_nomem env level fmt arg st hm] at hgrow
    simp at hgrow
  | some cand =>
    by_cases hr : vsnprintf_ret (env.format fmt arg) > 128
    · have hret : vsnprintf_ret (env.format fmt arg) = out.length := by
        by_cases hbig : (out.length : Int) ≤ INT_MAX
        · rw [hfmt, vsnprintf_ret_ok _ hbig]
        · exfalso
          rw [hfmt] at hr
          simp [vsnprintf_ret, hbig] at hr
      cases hg : env.reallocRet with
      | none =>
        rw [calls_nogrow env level fmt arg st cand hm hr hg] at hgrow
        simp only [List.mem_cons, List.mem_singleton, Event.realloc.injEq,
          reduceCtorEq, false_or, or_false, List.not_mem_nil] at hgrow
        exact absurd hgrow.2.2 hq
      | some cand' =>
        have hc := calls_grow env level fmt arg st cand cand' hm hr hg
        have hge := growSize_ge _ hr (vsnprintf_ret_le _)
        have ht := grownBuf_take env fmt arg _ hge
        have ho : vsnprintf_out (env.format fmt arg) = out := by rw [hfmt]; rfl
        rw [ho, h127] at ht
        rw [hc] at hgrow
        simp only [List.mem_cons, List.mem_singleton, Event.realloc.injEq,
          reduceCtorEq, false_or, or_false, List.not_mem_nil] at hgrow
        obtain ⟨rfl, rfl, rfl⟩ := hgrow
        refine ⟨_, ?_, grownBuf_length env fmt arg _ hge, ht, ?_, hne⟩
        · rw [hc, hret]
        · intro h0
          exact c_str_of_take _ _ (by rw [h127]; exact ht) h0
    · rw [calls_fit env level fmt arg st cand hm hr] at hgrow
      simp at hgrow

/-- C7, at a message of 200 characters with both allocations succeeding. -/
theorem go_alpm_log_cb_ships_truncated_witness :
    ∃ buf,
      calls envOk 1 (xs 200) [] ⟨[], []⟩ =
        [.malloc 128 4096, .vsnprintf 4096 128 (xs 200).length, .realloc 4096 208 8192,
         .LogCallback 1 8192 buf, .free 8192] ∧
      buf.length = 208 ∧
      buf.take 128 = (xs 200).take 127 ++ [0] ∧
      ((0 : UInt8) ∉ (xs 200).take 127 → c_str buf = some ((xs 200).take 127)) ∧
      (xs 200).take 127 ≠ xs 200 := by
  have hf : envOk.format (xs 200) [] = .ok (xs 200) := by
    rw [envOk_format]; exact cformat_xs 200 []
  have hret : vsnprintf_ret (envOk.format (xs 200) []) = 200 := by
    rw [hf, vsnprintf_ret_ok _ (by rw [xs_length]; unfold INT_MAX; omega), xs_length]; rfl
  have hc := calls_grow envOk 1 (xs 200) [] ⟨[], []⟩ 4096 8192 rfl (by rw [hret]; omega) rfl
  rw [hret, growSize_eq 200 (by omega) (by unfold INT_MAX; omega)] at hc
  exact go_alpm_log_cb_ships_truncated envOk 1 (xs 200) [] ⟨[], []⟩ (xs 200) 4096 208 8192 hf
    (by rw [xs_length]; omega) (by rw [hc]; simp [freshPtr, addrs]) (by decide)

/-- C8: `go_alpm_set_logging` makes `go_alpm_log_cb` the log callback of the
handle, leaves the rest of the handle as it was, and calling it twice gives
the same handle as calling it once. -/
theorem go_alpm_set_logging_idempotent {α : Type} (handle : alpm_handle_t α) :
    (go_alpm_set_logging handle).logcb = some alpm_cb_log.go_alpm_log_cb ∧
    (go_alpm_set_logging handle).rest = handle.rest ∧
    go_alpm_set_logging (go_alpm_set_logging handle) = go_alpm_set_logging handle :=
  ⟨rfl, rfl, rfl⟩

/-- C9: when the initial allocation succeeds and the rendered length fits
an `int`: at a rendered length of exactly 128 there is no reallocation and
the handler is called once with the first 127 characters and a null byte;
`realloc` is called if and only if the rendered length is above 128; every
buffer given to the handler holds the first 127 characters of the message
(all of it when it is shorter) followed by a null byte, and these are not
the whole message if and only if the rendered length is at least 128. -/
theorem go_alpm_log_cb_boundary (env : Env) (level : alpm_loglevel_t)
    (fmt : List UInt8) (arg : List Arg) (st : State) (out : List UInt8) (cand : Ptr)
    (hfmt : env.format fmt arg = .ok out) (hint : (out.length : Int) ≤ INT_MAX)
    (hm : env.mallocRet = some cand) :
    (out.length = 128 →
      ∃ s, calls env level fmt arg st =
        [.malloc 128 s, .vsnprintf s 128 128,
         .LogCallback level s (out.take 127 ++ [0]), .free s]) ∧
    (reallocSizes (calls env level fmt arg st) ≠ [] ↔ 128 < out.length) ∧
    (∀ lvl s buf, Event.LogCallback lvl s buf ∈ calls env level fmt arg st →
      buf.take ((out.take 127).length + 1) = out.take 127 ++ [0] ∧
      ((0 : UInt8) ∉ out → c_str buf = some (out.take 127))) ∧
    (out.take 127 ≠ out ↔ 128 ≤ out.length) := by
  have hret : vsnprintf_ret (env.format fmt arg) = out.length := by
    rw [hfmt, vsnprintf_ret_ok out hint]
  have ho : vsnprintf_out (env.format fmt arg) = out := by rw [hfmt]; rfl
  have hnul : (0 : UInt8) ∉ out → (0 : UInt8) ∉ out.take 127 :=
    fun h0 hmem => h0 (List.mem_of_mem_take hmem)
  refine ⟨?_, ?_, ?_, ?_⟩
  · intro h128
    have hr : ¬ vsnprintf_ret (env.format fmt arg) > 128 := by rw [hret]; omega
    have hc := calls_fit env level fmt arg st cand hm hr
    have hw : (written env fmt arg).length = 128 := by
      rw [written_length, ho]; omega
    have hb : filledBuf env fmt arg = out.take 127 ++ [0] := by
      rw [filledBuf_eq, hw, List.drop_of_length_le (by rw [freshBuf_length]),
        List.append_nil, written, ho]
    rw [hret, hb, h128] at hc
    exact ⟨_, hc⟩
  · by_cases hr : vsnprintf_ret (env.format fmt arg) > 128
    · have hlt : 128 < out.length := by rw [hret] at hr; omega
      cases hg : env.reallocRet with
      | none =>
        rw [calls_nogrow env level fmt arg st cand hm hr hg]
        simp [reallocSizes, hlt]
      | some cand' =>
        rw [calls_grow env level fmt arg st cand cand' hm hr hg]
        simp [reallocSizes, hlt]
    · have hle : ¬ 128 < out.length := by rw [hret] at hr; omega
      rw [calls_fit env level fmt arg st cand hm hr]
      simp [reallocSizes, hle]
  · intro lvl s buf h
    by_cases hr : vsnprintf_ret (env.format fmt arg) > 128
    · cases hg : env.reallocRet with
      | none =>
        rw [calls_nogrow env level fmt arg st cand hm hr hg] at h
        simp at h
      | some cand' =>
        have hge := growSize_ge _ hr (vsnprintf_ret_le _)
        have ht := grownBuf_take env fmt arg _ hge
        rw [ho] at ht
        rw [calls_grow env level fmt arg st cand cand' hm hr hg] at h
        simp only [List.mem_cons, List.mem_singleton, Event.LogCallback.injEq,
          reduceCtorEq, false_or, or_false, List.not_mem_nil] at h
        obtain ⟨_, _, rfl⟩ := h
        exact ⟨ht, fun h0 => c_str_of_take _ _ ht (hnul h0)⟩
    · have ht := filledBuf_take env fmt arg
      rw [ho] at ht
      rw [calls_fit env level fmt arg st cand hm hr] at h
      simp only [List.mem_cons, List.mem_singleton, Event.LogCallback.injEq,
        reduceCtorEq, false_or, or_false, List.not_mem_nil] at h
      obtain ⟨_, _, rfl⟩ := h
      exact ⟨ht, fun h0 => c_str_of_take _ _ ht (hnul h0)⟩
  · constructor
    · intro hne
      by_contra hlt
      exact hne (List.take_of_length_le (by omega))
    · intro hge e
      have := congrArg List.length e
      rw [List.length_take] at this
      omega

/-- C9, at a message of exactly 128 characters. -/
theorem go_alpm_log_cb_boundary_witness :
    ((xs 128).length = 128 →
      ∃ s, calls envOk 1 (xs 128) [] ⟨[], []⟩ =
        [.malloc 128 s, .vsnprintf s 128 128,
         .LogCallback 1 s ((xs 128).take 127 ++ [0]), .free s]) ∧
    (reallocSizes (calls envOk 1 (xs 128) [] ⟨[], []⟩) ≠ [] ↔ 128 < (xs 128).length) ∧
    (∀ lvl s buf, Event.LogCallback lvl s buf ∈ calls envOk 1 (xs 128) [] ⟨[], []⟩ →
      buf.take (((xs 128).take 127).length + 1) = (xs 128).take 127 ++ [0] ∧
      ((0 : UInt8) ∉ xs 128 → c_str buf = some ((xs 128).take 127))) ∧
    ((xs 128).take 127 ≠ xs 128 ↔ 128 ≤ (xs 128).length) :=
  go_alpm_log_cb_boundary envOk 1 (xs 128) [] ⟨[], []⟩ (xs 128) 4096
    (by rw [envOk_format]; exact cformat_xs 128 [])
    (by rw [xs_length]; unfold INT_MAX; omega) rfl

/-- C10: for every reported length `n` with `128 < n` and
`n ≤ INT_MAX - 16`, the value `(n + 16) & ~0xf` computed on `int` is a
multiple of 16, is strictly greater than `n`, is at most `n + 16`, equals
`16 * (n / 16 + 1)`, equals `n + 16` when `n` is a multiple of 16, and is
passed to `realloc` unchanged by the conversion to `size_t`. -/
theorem growth_size_arith (n : Int) (h1 : 128 < n) (h2 : n ≤ INT_MAX - 16) :
    16 ∣ int_and (int_add n 16) (int_not 0xf) ∧
    n < int_and (int_add n 16) (int_not 0xf) ∧
    int_and (int_add n 16) (int_not 0xf) ≤ n + 16 ∧
    int_and (int_add n 16) (int_not 0xf) = 16 * (n / 16 + 1) ∧
    (16 ∣ n → int_and (int_add n 16) (int_not 0xf) = n + 16) ∧
    (size_t_of_int (int_and (int_add n 16) (int_not 0xf)) : Int) =
      int_and (int_add n 16) (int_not 0xf) := by
  have h := int_grow_eq n (by omega) h2
  rw [h]
  unfold INT_MAX at h2
  refine ⟨Dvd.intro _ rfl, by omega, by omega, rfl, ?_, ?_⟩
  · intro hd
    obtain ⟨k, rfl⟩ := hd
    omega
  · unfold size_t_of_int
    omega

/-- C10, at the multiple of 16 `n = 144`: the value is 160, not 144. -/
theorem growth_size_arith_witness :
    16 ∣ int_and (int_add 144 16) (int_not 0xf) ∧
    144 < int_and (int_add 144 16) (int_not 0xf) ∧
    int_and (int_add 144 16) (int_not 0xf) ≤ 144 + 16 ∧
    int_and (int_add 144 16) (int_not 0xf) = 16 * (144 / 16 + 1) ∧
    (16 ∣ (144 : Int) → int_and (int_add 144 16) (int_not 0xf) = 144 + 16) ∧
    (size_t_of_int (int_and (int_add 144 16) (int_not 0xf)) : Int) =
      int_and (int_add 144 16) (int_not 0xf) :=
  growth_size_arith 144 (by decide) (by decide)

end GoAlpm
